import Mathlib

/-!
Verification of the TrimX CLI Python integration layer
(src/examples/trimx_python_example.py).

Times and tolerances are modelled as rationals. Python abs is modelled by
pyAbs, the builtin min with a key function by py_min_key (a stable minimum
scan: a later element replaces the current best only when its key is
strictly smaller, so the first occurrence of the minimal key wins, exactly
as in CPython). External processes are modelled by a World function from
the full command line (executable name followed by the argument list) to a
RunOutcome; run_command, extract_clip, verify_clip and batch_extract_clips
return, next to their value or raised-exception result, the list of
command lines they handed to the external tool, in invocation order.
-/

/-- Model of the Python builtin abs on floats, over the rationals. -/
def pyAbs (q : ℚ) : ℚ := if q < 0 then -q else q

/-- Model of the Python builtin min with a key function, seeded with the
first element of the sequence: a left fold that replaces the current best
element only when the new key is strictly smaller. -/
def py_min_key {α : Type} (f : α → ℚ) (k : α) (ks : List α) : α :=
  ks.foldl (fun best x => if f x < f best then x else best) k

/-- A keyframe record, as produced by the inspect capability with the
show-keyframes flag: a timestamp in seconds. -/
structure Keyframe where
  timestamp : ℚ
deriving DecidableEq

/-- Model of TrimXProcessor.find_optimal_cut_points, given the keyframe
list returned by analyze_keyframes: if there are no keyframes the desired
times are returned unchanged; otherwise each boundary independently snaps
to the keyframe nearest to it (stable minimum of absolute distance) when
that distance is within tolerance, and stays at the desired time
otherwise. -/
def find_optimal_cut_points (keyframes : List Keyframe)
    (desired_start desired_end : ℚ) (tolerance : ℚ) : ℚ × ℚ :=
  match keyframes with
  | [] => (desired_start, desired_end)
  | k :: ks =>
    let start_keyframe := py_min_key (fun kf => pyAbs (kf.timestamp - desired_start)) k ks
    let end_keyframe := py_min_key (fun kf => pyAbs (kf.timestamp - desired_end)) k ks
    let optimal_start := if pyAbs (start_keyframe.timestamp - desired_start) ≤ tolerance
      then start_keyframe.timestamp else desired_start
    let optimal_end := if pyAbs (end_keyframe.timestamp - desired_end) ≤ tolerance
      then end_keyframe.timestamp else desired_end
    (optimal_start, optimal_end)

/-- Outcome of spawning one external process, as decided by the
environment: clean exit, non-zero exit with a return code, or failure to
locate the executable. -/
inductive RunOutcome where
  | success
  | nonzeroExit (returncode : ℤ)
  | notFound
deriving DecidableEq

/-- The two exception classes run_command can raise: CalledProcessError
carrying the return code, and FileNotFoundError when the executable is
missing. -/
inductive PyError where
  | calledProcessError (returncode : ℤ)
  | fileNotFoundError
deriving DecidableEq

/-- The external environment: maps a full command line to the outcome of
running it. -/
def World : Type := List String → RunOutcome

/-- Model of str on a float argument. -/
def pyStr (q : ℚ) : String := toString q

/-- Model of TrimXProcessor.run_command: prepends the executable path to
the argument list, runs the command once, raises CalledProcessError on a
non-zero exit and FileNotFoundError when the executable is missing, and
returns normally otherwise. The second component is the list of command
lines handed to the external tool, here always exactly one. -/
def run_command (world : World) (trimx_path : String) (args : List String) :
    Except PyError Unit × List (List String) :=
  let cmd := trimx_path :: args
  match world cmd with
  | .success => (.ok (), [cmd])
  | .nonzeroExit c => (.error (.calledProcessError c), [cmd])
  | .notFound => (.error .fileNotFoundError, [cmd])

/-- Python truthiness of the optional integer quality parameter: None and
zero are falsy, every other value is truthy. -/
def quality_truthy : Option ℤ → Bool
  | some n => n != 0
  | none => false

/-- The argument list built by TrimXProcessor.extract_clip: the clip
subcommand with start, end, mode, output and overwrite flags, extended by
the quality flag pair exactly when the quality parameter is truthy. -/
def extract_clip_args (video_path : String) (start_time end_time : ℚ)
    (output_path mode : String) (quality_crf : Option ℤ) : List String :=
  let args := ["clip", video_path,
    "--start", pyStr start_time,
    "--end", pyStr end_time,
    "--mode", mode,
    "--output", output_path,
    "--overwrite", "yes"]
  if quality_truthy quality_crf then
    args ++ ["--quality-crf", toString (quality_crf.getD 0)]
  else args

/-- Model of TrimXProcessor.extract_clip: builds the argument list, runs
the command, returns true on success, converts CalledProcessError to
false, and lets FileNotFoundError propagate. -/
def extract_clip (world : World) (trimx_path video_path : String)
    (start_time end_time : ℚ) (output_path mode : String)
    (quality_crf : Option ℤ) : Except PyError Bool × List (List String) :=
  let args := extract_clip_args video_path start_time end_time output_path mode quality_crf
  match run_command world trimx_path args with
  | (.ok _, tr) => (.ok true, tr)
  | (.error (.calledProcessError _), tr) => (.ok false, tr)
  | (.error .fileNotFoundError, tr) => (.error .fileNotFoundError, tr)

/-- Model of TrimXProcessor.verify_clip: runs the verify subcommand with
expected bounds and tolerance, returns true on success, converts
CalledProcessError to false, and lets FileNotFoundError propagate. -/
def verify_clip (world : World) (trimx_path clip_path : String)
    (expected_start expected_end tolerance : ℚ) :
    Except PyError Bool × List (List String) :=
  match run_command world trimx_path
      ["verify", clip_path,
       "--expected-start", pyStr expected_start,
       "--expected-end", pyStr expected_end,
       "--tolerance", pyStr tolerance] with
  | (.ok _, tr) => (.ok true, tr)
  | (.error (.calledProcessError _), tr) => (.ok false, tr)
  | (.error .fileNotFoundError, tr) => (.error .fileNotFoundError, tr)

/-- A named segment request: start and end time in seconds, a name used
for the output file and the result mapping, and an optional description. -/
structure ClipSegment where
  start_time : ℚ
  end_time : ℚ
  name : String
  description : Option String := none
deriving DecidableEq

/-- Assignment into a Python dict modelled as an insertion-ordered
association list: an existing key keeps its position and gets the new
value, a new key is appended at the end. -/
def dictInsert (d : List (String × Bool)) (k : String) (v : Bool) :
    List (String × Bool) :=
  if d.any (fun p => p.1 == k) then
    d.map (fun p => if p.1 == k then (p.1, v) else p)
  else d ++ [(k, v)]

/-- Lookup in the insertion-ordered association list modelling a dict. -/
def dictLookup (d : List (String × Bool)) (k : String) : Option Bool :=
  (d.find? (fun p => p.1 == k)).map Prod.snd

/-- The full command line of the extraction invocation that
batch_extract_clips issues for one segment: extract_clip is called with
the segment bounds, the output path built from the output directory and
the segment name, the batch mode, and no quality parameter. -/
def segment_extract_cmd (tp vp od md : String) (seg : ClipSegment) : List String :=
  tp :: extract_clip_args vp seg.start_time seg.end_time
    (od ++ "/" ++ seg.name ++ ".mp4") md none

/-- The loop of TrimXProcessor.batch_extract_clips over the remaining
segments, threading the accumulated result dict: each segment is
extracted; on extraction success the clip is verified with the default
tolerance and the verification boolean recorded, on extraction failure
false is recorded and verification is skipped; a raised FileNotFoundError
aborts the loop. The second component collects the command lines issued
to the external tool, in order. -/
def batch_go (world : World) (tp vp od md : String) :
    List ClipSegment → List (String × Bool) →
    Except PyError (List (String × Bool)) × List (List String)
  | [], results => (.ok results, [])
  | seg :: rest, results =>
    let output_path := od ++ "/" ++ seg.name ++ ".mp4"
    match extract_clip world tp vp seg.start_time seg.end_time output_path md none with
    | (.error err, tr) => (.error err, tr)
    | (.ok false, tr) =>
      let r := batch_go world tp vp od md rest (dictInsert results seg.name false)
      (r.1, tr ++ r.2)
    | (.ok true, tr) =>
      match verify_clip world tp output_path seg.start_time seg.end_time 0.5 with
      | (.error err, tr₂) => (.error err, tr ++ tr₂)
      | (.ok b, tr₂) =>
        let r := batch_go world tp vp od md rest (dictInsert results seg.name b)
        (r.1, tr ++ tr₂ ++ r.2)

/-- Model of TrimXProcessor.batch_extract_clips: runs the per-segment
loop over the whole segment list with an initially empty result dict. -/
def batch_extract_clips (world : World) (tp vp : String)
    (segments : List ClipSegment) (od md : String) :
    Except PyError (List (String × Bool)) × List (List String) :=
  batch_go world tp vp od md segments []

/-- One stream record from the structured inspect output: an open mapping
from which the code reads only the type tag and, for the primary video
stream, width, height and frame rate; absent keys yield the defaults. -/
structure StreamRec where
  type : Option String := none
  width : Option ℤ := none
  height : Option ℤ := none
  frame_rate : Option ℚ := none
deriving DecidableEq

/-- The parsed structured document returned by the inspect invocation;
every key the code reads may be absent. -/
structure InspectData where
  duration : Option ℚ := none
  bit_rate : Option ℤ := none
  file_size : Option ℤ := none
  streams : Option (List StreamRec) := none
deriving DecidableEq

/-- The VideoInfo container built by inspect_video. -/
structure VideoInfo where
  path : String
  duration : ℚ
  width : ℤ
  height : ℤ
  frame_rate : ℚ
  bit_rate : ℤ
  file_size : ℤ
  video_streams : List StreamRec
  audio_streams : List StreamRec
deriving DecidableEq

/-- Model of TrimXProcessor.inspect_video applied to the parsed structured
output of the inspect command: classifies streams by their type tag in
order, takes the first video stream as primary (an empty record when there
is none), and fills every missing value with zero. -/
def inspect_video (video_path : String) (data : InspectData) : VideoInfo :=
  let streams := data.streams.getD []
  let video_streams := streams.filter (fun s => s.type == some "video")
  let audio_streams := streams.filter (fun s => s.type == some "audio")
  let primary_video := video_streams.head?
  { path := video_path
    duration := data.duration.getD 0
    width := (primary_video.bind StreamRec.width).getD 0
    height := (primary_video.bind StreamRec.height).getD 0
    frame_rate := (primary_video.bind StreamRec.frame_rate).getD 0
    bit_rate := data.bit_rate.getD 0
    file_size := data.file_size.getD 0
    video_streams := video_streams
    audio_streams := audio_streams }

theorem pyAbs_eq_abs (q : ℚ) : pyAbs q = |q| := by
  unfold pyAbs
  rcases lt_or_le q 0 with h | h
  · rw [if_pos h, abs_of_neg h]
  · rw [if_neg (not_lt.mpr h), abs_of_nonneg h]

theorem py_min_key_nil {α : Type} (f : α → ℚ) (k : α) : py_min_key f k [] = k := rfl

theorem py_min_key_cons {α : Type} (f : α → ℚ) (k x : α) (ks : List α) :
    py_min_key f k (x :: ks) = py_min_key f (if f x < f k then x else k) ks := rfl

theorem py_min_key_le {α : Type} (f : α → ℚ) (k : α) (ks : List α) :
    f (py_min_key f k ks) ≤ f k := by
  induction ks generalizing k with
  | nil => exact le_refl _
  | cons x ks ih =>
    rw [py_min_key_cons]
    by_cases hx : f x < f k
    · rw [if_pos hx]
      exact le_trans (ih x) (le_of_lt hx)
    · rw [if_neg hx]
      exact ih k

/-- The stable minimum scan splits its input: all elements strictly before
the returned element have strictly larger keys (first occurrence wins) and
all elements after it have keys at least as large. -/
theorem py_min_key_split {α : Type} (f : α → ℚ) (k : α) (ks : List α) :
    ∃ l₁ l₂, k :: ks = l₁ ++ py_min_key f k ks :: l₂ ∧
      (∀ y ∈ l₁, f (py_min_key f k ks) < f y) ∧
      (∀ y ∈ l₂, f (py_min_key f k ks) ≤ f y) := by
  induction ks generalizing k with
  | nil => exact ⟨[], [], rfl, by simp, by simp⟩
  | cons x ks ih =>
    rw [py_min_key_cons]
    by_cases hx : f x < f k
    · rw [if_pos hx]
      obtain ⟨l₁, l₂, heq, h₁, h₂⟩ := ih x
      refine ⟨k :: l₁, l₂, ?_, ?_, h₂⟩
      · rw [List.cons_append, ← heq]
      · intro y hy
        rcases List.mem_cons.mp hy with rfl | hy
        · exact lt_of_le_of_lt (py_min_key_le f x ks) hx
        · exact h₁ y hy
    · rw [if_neg hx]
      obtain ⟨l₁, l₂, heq, h₁, h₂⟩ := ih k
      cases l₁ with
      | nil =>
        simp only [List.nil_append] at heq
        injection heq with hk hks
        refine ⟨[], x :: l₂, ?_, by simp, ?_⟩
        · simp only [List.nil_append]
          rw [← hk, hks]
        · intro y hy
          rcases List.mem_cons.mp hy with rfl | hy
          · rw [← hk]
            exact not_lt.mp hx
          · exact h₂ y hy
      | cons a l₁ =>
        simp only [List.cons_append] at heq
        injection heq with hk hks
        refine ⟨k :: x :: l₁, l₂, ?_, ?_, h₂⟩
        · simp only [List.cons_append]
          conv_lhs => rw [hks]
        · intro y hy
          rcases List.mem_cons.mp hy with rfl | hy
          · have := h₁ a (List.mem_cons_self a l₁)
            rw [← hk] at this
            exact this
          rcases List.mem_cons.mp hy with rfl | hy
          · exact lt_of_lt_of_le (hk ▸ h₁ a (List.mem_cons_self a l₁)) (not_lt.mp hx)
          · exact h₁ y (List.mem_cons_of_mem a hy)

/-- C3: for every non-empty keyframe sequence, each boundary is obtained
from the keyframe minimizing the absolute distance to the desired time,
ties broken by first occurrence (all earlier keyframes are strictly
farther, all later ones at least as far); the boundary is that keyframe
timestamp when its distance is within tolerance and the desired time
otherwise; and on keyframes [2, 9, 20] with desired start 8.5, desired
end 18.2 and tolerance 2 the result is (9, 20). -/
theorem C3_nearest_keyframe_selection (k : Keyframe) (ks : List Keyframe) (s e tol : ℚ) :
    (∃ l₁ l₂ n, k :: ks = l₁ ++ n :: l₂ ∧
        (∀ y ∈ l₁, pyAbs (n.timestamp - s) < pyAbs (y.timestamp - s)) ∧
        (∀ y ∈ l₂, pyAbs (n.timestamp - s) ≤ pyAbs (y.timestamp - s)) ∧
        (find_optimal_cut_points (k :: ks) s e tol).1 =
          if pyAbs (n.timestamp - s) ≤ tol then n.timestamp else s) ∧
    (∃ l₁ l₂ n, k :: ks = l₁ ++ n :: l₂ ∧
        (∀ y ∈ l₁, pyAbs (n.timestamp - e) < pyAbs (y.timestamp - e)) ∧
        (∀ y ∈ l₂, pyAbs (n.timestamp - e) ≤ pyAbs (y.timestamp - e)) ∧
        (find_optimal_cut_points (k :: ks) s e tol).2 =
          if pyAbs (n.timestamp - e) ≤ tol then n.timestamp else e) ∧
    find_optimal_cut_points [⟨2⟩, ⟨9⟩, ⟨20⟩] 8.5 18.2 2 = (9, 20) := by
  refine ⟨?_, ?_, ?_⟩
  · obtain ⟨l₁, l₂, heq, h₁, h₂⟩ :=
      py_min_key_split (fun kf => pyAbs (kf.timestamp - s)) k ks
    exact ⟨l₁, l₂, _, heq, h₁, h₂, rfl⟩
  · obtain ⟨l₁, l₂, heq, h₁, h₂⟩ :=
      py_min_key_split (fun kf => pyAbs (kf.timestamp - e)) k ks
    exact ⟨l₁, l₂, _, heq, h₁, h₂, rfl⟩
  · norm_num [find_optimal_cut_points, py_min_key, pyAbs]

/-- C4: with an empty keyframe sequence the desired window is returned
unchanged, for every desired window and tolerance. -/
theorem C4_empty_keyframes_identity (s e tol : ℚ) :
    find_optimal_cut_points [] s e tol = (s, e) := rfl

/-- C5: the two boundaries are computed independently (the start result
does not depend on the desired end and the end result does not depend on
the desired start), and on keyframes [10] with desired window (9, 11) and
tolerance 2 the returned window is (10, 10), a crossed window with
resultEnd at most resultStart returned as is, without rejection or
adjustment. -/
theorem C5_independent_boundaries_can_cross :
    (∀ (ks : List Keyframe) (s e e' tol : ℚ),
      (find_optimal_cut_points ks s e tol).1 = (find_optimal_cut_points ks s e' tol).1) ∧
    (∀ (ks : List Keyframe) (s s' e tol : ℚ),
      (find_optimal_cut_points ks s e tol).2 = (find_optimal_cut_points ks s' e tol).2) ∧
    ((9 : ℚ) < 11 ∧ find_optimal_cut_points [⟨10⟩] 9 11 2 = (10, 10) ∧
      (find_optimal_cut_points [⟨10⟩] 9 11 2).2 ≤ (find_optimal_cut_points [⟨10⟩] 9 11 2).1) := by
  refine ⟨?_, ?_, ?_, ?_, ?_⟩
  · intro ks s e e' tol
    cases ks with
    | nil => rfl
    | cons k ks => rfl
  · intro ks s s' e tol
    cases ks with
    | nil => rfl
    | cons k ks => rfl
  · norm_num
  · norm_num [find_optimal_cut_points, py_min_key, pyAbs]
  · norm_num [find_optimal_cut_points, py_min_key, pyAbs]

theorem extract_clip_eq (world : World) (tp vp : String) (s e : ℚ)
    (op mode : String) (q : Option ℤ) :
    extract_clip world tp vp s e op mode q =
      (match world (tp :: extract_clip_args vp s e op mode q) with
        | .success => .ok true
        | .nonzeroExit _ => .ok false
        | .notFound => .error .fileNotFoundError,
       [tp :: extract_clip_args vp s e op mode q]) := by
  cases h : world (tp :: extract_clip_args vp s e op mode q) <;>
    simp [extract_clip, run_command, h]

theorem verify_clip_eq (world : World) (tp cp : String) (s e tol : ℚ) :
    verify_clip world tp cp s e tol =
      (match world (tp :: ["verify", cp, "--expected-start", pyStr s,
          "--expected-end", pyStr e, "--tolerance", pyStr tol]) with
        | .success => .ok true
        | .nonzeroExit _ => .ok false
        | .notFound => .error .fileNotFoundError,
       [tp :: ["verify", cp, "--expected-start", pyStr s,
          "--expected-end", pyStr e, "--tolerance", pyStr tol]]) := by
  cases h : world (tp :: ["verify", cp, "--expected-start", pyStr s,
      "--expected-end", pyStr e, "--tolerance", pyStr tol]) <;>
    simp [verify_clip, run_command, h]

/-- C1 counterexample: with mode copy (not re-encode) and quality 23, the
command built and handed to the external tool still carries the quality
flag, so the quality parameter is not omitted outside re-encode mode. -/
theorem C1_counterexample :
    "--quality-crf" ∈ extract_clip_args "input.mp4" 5 15 "out.mp4" "copy" (some 23) ∧
    (extract_clip (fun _ => .success) "trimx" "input.mp4" 5 15 "out.mp4" "copy"
        (some 23)).2 =
      ["trimx" :: extract_clip_args "input.mp4" 5 15 "out.mp4" "copy" (some 23)] := by
  constructor
  · simp [extract_clip_args, quality_truthy]
  · rfl

/-- C1 amended: the quality parameter is forwarded exactly when it is
present and non-zero (Python truthiness), regardless of the requested
mode: the built command equals the command without a quality parameter,
extended by the quality flag pair when the parameter is truthy and by
nothing otherwise. -/
theorem C1_quality_forwarded_iff_truthy (video_path : String) (s e : ℚ)
    (output_path mode : String) (q : Option ℤ) :
    extract_clip_args video_path s e output_path mode q =
      extract_clip_args video_path s e output_path mode none ++
        (if quality_truthy q then ["--quality-crf", toString (q.getD 0)] else []) := by
  unfold extract_clip_args
  cases q with
  | none => simp [quality_truthy]
  | some n =>
    by_cases h : n = 0
    · simp [quality_truthy, h]
    · simp [quality_truthy, h]

/-- C10: a quality parameter equal to zero is omitted from the command
exactly as if it were absent, for every mode; in particular the command
with mode reencode and quality zero does not carry the quality flag. -/
theorem C10_zero_quality_omitted :
    (∀ (video_path : String) (s e : ℚ) (output_path mode : String),
      extract_clip_args video_path s e output_path mode (some 0) =
        extract_clip_args video_path s e output_path mode none) ∧
    "--quality-crf" ∉
      extract_clip_args "input.mp4" 5 15 "out.mp4" "reencode" (some 0) := by
  constructor
  · intro video_path s e output_path mode
    rfl
  · intro hmem
    simp [extract_clip_args, quality_truthy, pyStr] at hmem
    rcases hmem with h | h <;> exact absurd h (by decide)

/-- C2 counterexample: a request with start 10 and end 5 (start greater
than end) is not rejected: the external process is invoked once with
exactly those bounds and the call returns true when the tool exits
cleanly, so no InvalidInputError precedes the external invocation. -/
theorem C2_counterexample :
    (extract_clip (fun _ => .success) "trimx" "input.mp4" 10 5 "out.mp4" "auto"
        none).1 = .ok true ∧
    (extract_clip (fun _ => .success) "trimx" "input.mp4" 10 5 "out.mp4" "auto"
        none).2 =
      ["trimx" :: extract_clip_args "input.mp4" 10 5 "out.mp4" "auto" none] :=
  ⟨rfl, rfl⟩

/-- C2 amended: extract_clip performs no window validation: for every
request with startTime at least endTime, the external process is still
invoked exactly once, with that window forwarded verbatim; no error is
raised before the invocation. -/
theorem C2_no_window_validation (world : World) (tp vp : String) (s e : ℚ)
    (op mode : String) (q : Option ℤ) (h : e ≤ s) :
    (extract_clip world tp vp s e op mode q).2 =
      [tp :: extract_clip_args vp s e op mode q] := by
  rw [extract_clip_eq]

theorem C2_no_window_validation_witness :
    (extract_clip (fun _ => .success) "trimx" "input.mp4" 5 5 "out.mp4" "auto"
        none).2 =
      ["trimx" :: extract_clip_args "input.mp4" 5 5 "out.mp4" "auto" none] :=
  C2_no_window_validation (fun _ => .success) "trimx" "input.mp4" 5 5 "out.mp4"
    "auto" none (le_refl 5)

/-- C7 counterexample: a failure to locate the executable arising from the
extraction invocation is a process-level error that is not converted to
false: extract_clip propagates FileNotFoundError instead of returning. -/
theorem C7_counterexample :
    (extract_clip (fun _ => .notFound) "trimx" "input.mp4" 0 10 "out.mp4" "auto"
        none).1 = .error .fileNotFoundError := rfl

/-- C7 amended: a non-zero exit of the external extraction process
(CalledProcessError) is caught at the extract_clip boundary and converted
to the boolean false; only FileNotFoundError, raised when the executable
cannot be started, escapes this conversion. -/
theorem C7_nonzero_exit_converted_to_false (world : World) (tp vp : String)
    (s e : ℚ) (op mode : String) (q : Option ℤ) (c : ℤ)
    (h : world (tp :: extract_clip_args vp s e op mode q) = .nonzeroExit c) :
    (extract_clip world tp vp s e op mode q).1 = .ok false := by
  rw [extract_clip_eq, h]

theorem C7_nonzero_exit_converted_to_false_witness :
    (extract_clip (fun _ => .nonzeroExit 1) "trimx" "input.mp4" 0 10 "out.mp4"
        "auto" none).1 = .ok false :=
  C7_nonzero_exit_converted_to_false (fun _ => .nonzeroExit 1) "trimx" "input.mp4"
    0 10 "out.mp4" "auto" none 1 rfl

theorem dict_keys_mem (d : List (String × Bool)) (k : String) :
    d.any (fun p => p.1 == k) = true ↔ k ∈ d.map Prod.fst := by
  rw [List.any_eq_true]
  constructor
  · rintro ⟨p, hp, hbe⟩
    exact List.mem_map.mpr ⟨p, hp, beq_iff_eq.mp hbe⟩
  · rintro hm
    obtain ⟨p, hp, he⟩ := List.mem_map.mp hm
    exact ⟨p, hp, beq_iff_eq.mpr he⟩

theorem find_map_overwrite (d : List (String × Bool)) (k : String) (v : Bool)
    (h : k ∈ d.map Prod.fst) :
    ((d.map (fun p => if p.1 == k then (p.1, v) else p)).find?
        (fun p => p.1 == k)).map Prod.snd = some v := by
  induction d with
  | nil => simp at h
  | cons p d ih =>
    rcases eq_or_ne p.1 k with hp | hp
    · have hbe : (p.1 == k) = true := beq_iff_eq.mpr hp
      rw [List.map_cons, if_pos hbe]
      simp [hbe]
    · have hbe : (p.1 == k) = false := beq_eq_false_iff_ne.mpr hp
      rw [List.map_cons, if_neg (by simp [hbe])]
      rw [List.find?_cons, hbe]
      apply ih
      simp only [List.map_cons, List.mem_cons] at h
      rcases h with h | h
      · exact absurd h.symm hp
      · exact h

theorem find_append_fresh (d : List (String × Bool)) (k : String) (v : Bool)
    (h : k ∉ d.map Prod.fst) :
    ((d ++ [(k, v)]).find? (fun p => p.1 == k)).map Prod.snd = some v := by
  induction d with
  | nil => simp [List.find?]
  | cons p d ih =>
    simp only [List.map_cons, List.mem_cons] at h
    push_neg at h
    obtain ⟨h1, h2⟩ := h
    have hbe : (p.1 == k) = false := beq_eq_false_iff_ne.mpr (fun hc => h1 hc.symm)
    rw [List.cons_append, List.find?_cons, hbe]
    exact ih h2

theorem dictLookup_dictInsert (d : List (String × Bool)) (k : String) (v : Bool) :
    dictLookup (dictInsert d k v) k = some v := by
  unfold dictLookup dictInsert
  by_cases hmem : k ∈ d.map Prod.fst
  · rw [if_pos ((dict_keys_mem d k).mpr hmem)]
    exact find_map_overwrite d k v hmem
  · rw [if_neg (fun hc => hmem ((dict_keys_mem d k).mp hc))]
    exact find_append_fresh d k v hmem

theorem dictInsert_keys_of_not_mem (d : List (String × Bool)) (k : String)
    (v : Bool) (h : k ∉ d.map Prod.fst) :
    (dictInsert d k v).map Prod.fst = d.map Prod.fst ++ [k] := by
  unfold dictInsert
  have hany : ¬ (d.any (fun p => p.1 == k) = true) :=
    fun hc => h ((dict_keys_mem d k).mp hc)
  rw [if_neg hany]
  simp

theorem dictInsert_length_of_mem (d : List (String × Bool)) (k : String)
    (v : Bool) (h : k ∈ d.map Prod.fst) :
    (dictInsert d k v).length = d.length := by
  unfold dictInsert
  rw [if_pos ((dict_keys_mem d k).mpr h)]
  simp

theorem batch_go_cons_extract_failed (world : World) (tp vp od md : String)
    (seg : ClipSegment) (rest : List ClipSegment)
    (results : List (String × Bool)) (c : ℤ)
    (h : world (segment_extract_cmd tp vp od md seg) = .nonzeroExit c) :
    batch_go world tp vp od md (seg :: rest) results =
      ((batch_go world tp vp od md rest (dictInsert results seg.name false)).1,
       segment_extract_cmd tp vp od md seg ::
         (batch_go world tp vp od md rest (dictInsert results seg.name false)).2) := by
  simp only [segment_extract_cmd] at h
  simp only [batch_go, extract_clip_eq, segment_extract_cmd, h]
  rfl

theorem batch_go_append (world : World) (tp vp od md : String)
    (l₁ l₂ : List ClipSegment) (res : List (String × Bool)) :
    batch_go world tp vp od md (l₁ ++ l₂) res =
      (match batch_go world tp vp od md l₁ res with
        | (.error err, tr) => (.error err, tr)
        | (.ok res₁, tr) =>
          ((batch_go world tp vp od md l₂ res₁).1,
           tr ++ (batch_go world tp vp od md l₂ res₁).2)) := by
  induction l₁ generalizing res with
  | nil => simp [batch_go]
  | cons seg rest ih =>
    have hra : rest.append l₂ = rest ++ l₂ := rfl
    simp only [List.cons_append, batch_go]
    rcases hw : world (tp :: extract_clip_args vp seg.start_time seg.end_time
        (od ++ "/" ++ seg.name ++ ".mp4") md none) with _ | c | _
    · simp only [extract_clip_eq, hw]
      rcases hv : world (tp :: ["verify", od ++ "/" ++ seg.name ++ ".mp4",
          "--expected-start", pyStr seg.start_time, "--expected-end",
          pyStr seg.end_time, "--tolerance", pyStr 0.5]) with _ | c₂ | _
      · simp only [verify_clip_eq, hv]
        rw [hra, ih]
        rcases batch_go world tp vp od md rest (dictInsert res seg.name true) with ⟨br, bt⟩
        cases br <;> simp
      · simp only [verify_clip_eq, hv]
        rw [hra, ih]
        rcases batch_go world tp vp od md rest (dictInsert res seg.name false) with ⟨br, bt⟩
        cases br <;> simp
      · simp only [verify_clip_eq, hv]
    · simp only [extract_clip_eq, hw]
      rw [hra, ih]
      rcases batch_go world tp vp od md rest (dictInsert res seg.name false) with ⟨br, bt⟩
      cases br <;> simp
    · simp only [extract_clip_eq, hw]

theorem batch_go_keys (world : World) (tp vp od md : String)
    (segs : List ClipSegment) :
    ∀ (res res' : List (String × Bool)),
      (segs.map ClipSegment.name).Nodup →
      (∀ s ∈ segs, s.name ∉ res.map Prod.fst) →
      (batch_go world tp vp od md segs res).1 = .ok res' →
      res'.map Prod.fst = res.map Prod.fst ++ segs.map ClipSegment.name := by
  induction segs with
  | nil =>
    intro res res' _ _ h
    simp [batch_go] at h
    subst h
    simp
  | cons seg rest ih =>
    intro res res' hnodup hdisj h
    simp only [List.map_cons, List.nodup_cons] at hnodup
    obtain ⟨hseg, hrest⟩ := hnodup
    have hmem : seg.name ∉ res.map Prod.fst := hdisj seg (List.mem_cons_self seg rest)
    have hstep : ∀ b : Bool,
        (batch_go world tp vp od md rest (dictInsert res seg.name b)).1 = .ok res' →
        res'.map Prod.fst = res.map Prod.fst ++ seg.name :: rest.map ClipSegment.name := by
      intro b hb
      have hk := dictInsert_keys_of_not_mem res seg.name b hmem
      have hdisj₂ : ∀ s ∈ rest, s.name ∉ (dictInsert res seg.name b).map Prod.fst := by
        intro s hs
        rw [hk]
        intro hc
        rcases List.mem_append.mp hc with hc | hc
        · exact hdisj s (List.mem_cons_of_mem seg hs) hc
        · have hsn : s.name ∈ rest.map ClipSegment.name := List.mem_map_of_mem _ hs
          have hc := List.mem_singleton.mp hc
          exact hseg (hc ▸ hsn)
      have hout := ih (dictInsert res seg.name b) res' hrest hdisj₂ hb
      rw [hout, hk, List.append_assoc]
      rfl
    simp only [batch_go] at h
    rcases hw : world (tp :: extract_clip_args vp seg.start_time seg.end_time
        (od ++ "/" ++ seg.name ++ ".mp4") md none) with _ | c | _
    · simp only [extract_clip_eq, hw] at h
      rcases hv : world (tp :: ["verify", od ++ "/" ++ seg.name ++ ".mp4",
          "--expected-start", pyStr seg.start_time, "--expected-end",
          pyStr seg.end_time, "--tolerance", pyStr 0.5]) with _ | c₂ | _
      · simp only [verify_clip_eq, hv] at h
        exact hstep true h
      · simp only [verify_clip_eq, hv] at h
        exact hstep false h
      · simp only [verify_clip_eq, hv] at h
        exact absurd h (by simp)
    · simp only [extract_clip_eq, hw] at h
      exact hstep false h
    · simp only [extract_clip_eq, hw] at h
      exact absurd h (by simp)

/-- C6: in a batch, a segment whose extraction returns failure has outcome
false recorded in the result dict, contributes exactly its one extraction
command to the invocation trace (so verification is never invoked for it),
and the remaining segments are processed afterwards in input order,
continuing from the updated result dict. -/
theorem C6_failing_segment_isolated (world : World) (tp vp od md : String)
    (pre post : List ClipSegment) (seg : ClipSegment)
    (res₀ : List (String × Bool)) (c : ℤ)
    (hpre : (batch_go world tp vp od md pre []).1 = .ok res₀)
    (hfail : world (segment_extract_cmd tp vp od md seg) = .nonzeroExit c) :
    batch_extract_clips world tp vp (pre ++ seg :: post) od md =
      ((batch_go world tp vp od md post (dictInsert res₀ seg.name false)).1,
       (batch_go world tp vp od md pre []).2 ++
         segment_extract_cmd tp vp od md seg ::
           (batch_go world tp vp od md post (dictInsert res₀ seg.name false)).2) ∧
    dictLookup (dictInsert res₀ seg.name false) seg.name = some false := by
  refine ⟨?_, dictLookup_dictInsert res₀ seg.name false⟩
  unfold batch_extract_clips
  rw [batch_go_append]
  rcases hB : batch_go world tp vp od md pre [] with ⟨br, bt⟩
  rw [hB] at hpre
  simp at hpre
  subst hpre
  show ((batch_go world tp vp od md (seg :: post) res₀).1,
      bt ++ (batch_go world tp vp od md (seg :: post) res₀).2) =
    ((batch_go world tp vp od md post (dictInsert res₀ seg.name false)).1,
     bt ++ segment_extract_cmd tp vp od md seg ::
       (batch_go world tp vp od md post (dictInsert res₀ seg.name false)).2)
  rw [batch_go_cons_extract_failed world tp vp od md seg post res₀ c hfail]

theorem C6_failing_segment_isolated_witness :
    batch_extract_clips (fun _ => RunOutcome.nonzeroExit 1) "trimx" "v.mp4"
        ([⟨0, 10, "intro", none⟩] ++ ⟨15, 25, "main1", none⟩ :: [⟨30, 40, "main2", none⟩])
        "out" "auto" =
      ((batch_go (fun _ => RunOutcome.nonzeroExit 1) "trimx" "v.mp4" "out" "auto"
          [⟨30, 40, "main2", none⟩] (dictInsert [("intro", false)] "main1" false)).1,
       (batch_go (fun _ => RunOutcome.nonzeroExit 1) "trimx" "v.mp4" "out" "auto"
          [⟨0, 10, "intro", none⟩] []).2 ++
         segment_extract_cmd "trimx" "v.mp4" "out" "auto" ⟨15, 25, "main1", none⟩ ::
           (batch_go (fun _ => RunOutcome.nonzeroExit 1) "trimx" "v.mp4" "out" "auto"
              [⟨30, 40, "main2", none⟩] (dictInsert [("intro", false)] "main1" false)).2) ∧
    dictLookup (dictInsert [("intro", false)] "main1" false) "main1" = some false :=
  C6_failing_segment_isolated (fun _ => RunOutcome.nonzeroExit 1) "trimx" "v.mp4"
    "out" "auto" [⟨0, 10, "intro", none⟩] [⟨30, 40, "main2", none⟩]
    ⟨15, 25, "main1", none⟩ [("intro", false)] 1 rfl rfl

/-- C8: when a batch completes, its result mapping has as keys exactly the
input segment names in input order (hence one entry per segment) provided
the names are unique; and when the batch ends with a segment whose name
may duplicate an earlier one, the final mapping is the earlier mapping
updated at that name with the last outcome: lookup yields the later value
and, when the name was already a key, the mapping does not grow. -/
theorem C8_result_mapping_keys (world : World) (tp vp od md : String)
    (segments : List ClipSegment) (res : List (String × Bool))
    (segs : List ClipSegment) (seg : ClipSegment)
    (res₀ resF : List (String × Bool)) :
    ((batch_extract_clips world tp vp segments od md).1 = .ok res →
      (segments.map ClipSegment.name).Nodup →
      res.map Prod.fst = segments.map ClipSegment.name ∧
        res.length = segments.length) ∧
    ((batch_go world tp vp od md segs []).1 = .ok res₀ →
      (batch_extract_clips world tp vp (segs ++ [seg]) od md).1 = .ok resF →
      ∃ b, resF = dictInsert res₀ seg.name b ∧
        dictLookup resF seg.name = some b ∧
        (seg.name ∈ res₀.map Prod.fst → resF.length = res₀.length)) := by
  constructor
  · intro h hnodup
    have hkeys := batch_go_keys world tp vp od md segments [] res hnodup (by simp) h
    simp only [List.map_nil, List.nil_append] at hkeys
    refine ⟨hkeys, ?_⟩
    have hlen := congrArg List.length hkeys
    simpa using hlen
  · intro hpre hfull
    have hpack : ∀ b : Bool, resF = dictInsert res₀ seg.name b →
        ∃ b, resF = dictInsert res₀ seg.name b ∧
          dictLookup resF seg.name = some b ∧
          (seg.name ∈ res₀.map Prod.fst → resF.length = res₀.length) := by
      intro b hb
      refine ⟨b, hb, ?_, ?_⟩
      · rw [hb]
        exact dictLookup_dictInsert res₀ seg.name b
      · intro hm
        rw [hb]
        exact dictInsert_length_of_mem res₀ seg.name b hm
    unfold batch_extract_clips at hfull
    rw [batch_go_append] at hfull
    rcases hB : batch_go world tp vp od md segs [] with ⟨br, bt⟩
    rw [hB] at hpre hfull
    simp at hpre
    subst hpre
    have hfull₂ : (batch_go world tp vp od md [seg] res₀).1 = .ok resF := hfull
    simp only [batch_go] at hfull₂
    rcases hw : world (tp :: extract_clip_args vp seg.start_time seg.end_time
        (od ++ "/" ++ seg.name ++ ".mp4") md none) with _ | c | _
    · simp only [extract_clip_eq, hw] at hfull₂
      rcases hv : world (tp :: ["verify", od ++ "/" ++ seg.name ++ ".mp4",
          "--expected-start", pyStr seg.start_time, "--expected-end",
          pyStr seg.end_time, "--tolerance", pyStr 0.5]) with _ | c₂ | _
      · simp only [verify_clip_eq, hv, batch_go] at hfull₂
        exact hpack true (by injection hfull₂ with h2; exact h2.symm)
      · simp only [verify_clip_eq, hv, batch_go] at hfull₂
        exact hpack false (by injection hfull₂ with h2; exact h2.symm)
      · simp only [verify_clip_eq, hv] at hfull₂
        exact absurd hfull₂ (by simp)
    · simp only [extract_clip_eq, hw, batch_go] at hfull₂
      exact hpack false (by injection hfull₂ with h2; exact h2.symm)
    · simp only [extract_clip_eq, hw] at hfull₂
      exact absurd hfull₂ (by simp)

theorem C8_result_mapping_keys_witness :
    (([("a", true), ("b", true)] : List (String × Bool)).map Prod.fst =
        [ClipSegment.mk 0 10 "a" none, ClipSegment.mk 10 20 "b" none].map ClipSegment.name ∧
      ([("a", true), ("b", true)] : List (String × Bool)).length =
        [ClipSegment.mk 0 10 "a" none, ClipSegment.mk 10 20 "b" none].length) ∧
    (∃ b, ([("a", true)] : List (String × Bool)) = dictInsert [("a", true)] "a" b ∧
      dictLookup [("a", true)] "a" = some b ∧
      ("a" ∈ ([("a", true)] : List (String × Bool)).map Prod.fst →
        ([("a", true)] : List (String × Bool)).length =
          ([("a", true)] : List (String × Bool)).length)) :=
  ⟨(C8_result_mapping_keys (fun _ => RunOutcome.success) "trimx" "v.mp4" "out" "auto"
      [⟨0, 10, "a", none⟩, ⟨10, 20, "b", none⟩] [("a", true), ("b", true)]
      [⟨0, 10, "a", none⟩] ⟨5, 15, "a", none⟩ [("a", true)] [("a", true)]).1
    rfl (by decide),
   (C8_result_mapping_keys (fun _ => RunOutcome.success) "trimx" "v.mp4" "out" "auto"
      [⟨0, 10, "a", none⟩, ⟨10, 20, "b", none⟩] [("a", true), ("b", true)]
      [⟨0, 10, "a", none⟩] ⟨5, 15, "a", none⟩ [("a", true)] [("a", true)]).2
    rfl rfl⟩

/-- C9: when the inspect output contains zero video streams, the
constructed VideoInfo has width 0, height 0 and frame rate 0, and the
construction succeeds (inspect_video is total on parsed data). -/
theorem C9_no_video_stream_defaults (video_path : String) (data : InspectData)
    (h : (data.streams.getD []).filter (fun s => s.type == some "video") = []) :
    (inspect_video video_path data).width = 0 ∧
    (inspect_video video_path data).height = 0 ∧
    (inspect_video video_path data).frame_rate = 0 := by
  unfold inspect_video
  simp [h]

theorem C9_no_video_stream_defaults_witness :
    (inspect_video "sample.mp4"
        ⟨some 30, some 1000, some 5000, some [⟨some "audio", none, none, none⟩]⟩).width = 0 ∧
    (inspect_video "sample.mp4"
        ⟨some 30, some 1000, some 5000, some [⟨some "audio", none, none, none⟩]⟩).height = 0 ∧
    (inspect_video "sample.mp4"
        ⟨some 30, some 1000, some 5000, some [⟨some "audio", none, none, none⟩]⟩).frame_rate = 0 :=
  C9_no_video_stream_defaults "sample.mp4"
    ⟨some 30, some 1000, some 5000, some [⟨some "audio", none, none, none⟩]⟩ (by decide)
